import Mathlib

/-!
# Verification of the contact-book core (`src/main.py`)

Shallow embedding of the data model and birthday-scheduling logic of the
address-book program: the `Phone`/`Birthday` field validators, `Record`,
`AddressBook`, and `get_upcoming_birthdays`.

Modelling conventions:
* Python strings are `List Char`.  `str.isdigit` is modelled by
  `Char.isDigit` (decimal digit characters).
* Python `datetime.date` values are `PyDate` (year/month/day as `Nat`,
  valid years 1..9999 as in CPython's `datetime.MINYEAR`/`MAXYEAR`).
* Result dates produced by date arithmetic (`date + timedelta`) are
  represented by their proleptic-Gregorian ordinal (`PyDate.toOrdinal`,
  CPython's `date.toordinal`: 1.1.1 has ordinal 1); the final
  `strftime("%Y.%m.%d")` rendering is presentation only, so the emitted
  `congratulation_date` is carried as that ordinal.
* Methods that mutate a `Record` and can raise are embedded as
  `Record → args → Except PyError Unit × Record`, returning the record
  as it stands when the method returns or raises; a raise before any
  mutation yields the unchanged record, matching the Python control flow
  statement by statement.
-/

/-- A Python `ValueError` carrying its message. -/
inductive PyError where
  | valueError (msg : String)
deriving DecidableEq, Repr

/-- A Python `datetime.date` triple (validity is checked at the
construction sites, mirroring the `datetime.date` constructor). -/
structure PyDate where
  year : Nat
  month : Nat
  day : Nat
deriving DecidableEq, Repr, Inhabited

/-- Gregorian leap-year rule, as in CPython `calendar.isleap`. -/
def isLeap (y : Nat) : Bool :=
  y % 4 = 0 && (y % 100 ≠ 0 || y % 400 = 0)

/-- Length of month `m` of year `y`, as in CPython `datetime._days_in_month`. -/
def daysInMonth (y m : Nat) : Nat :=
  if m = 2 then (if isLeap y then 29 else 28)
  else if m = 4 ∨ m = 6 ∨ m = 9 ∨ m = 11 then 30
  else 31

/-- The validity check performed by the `datetime.date` constructor:
year in `MINYEAR..MAXYEAR`, month in `1..12`, day in `1..days_in_month`. -/
def validYMD (y m d : Nat) : Bool :=
  1 ≤ y && y ≤ 9999 && 1 ≤ m && m ≤ 12 && 1 ≤ d && d ≤ daysInMonth y m

/-- Days in all years strictly before year `y`
(CPython `datetime._days_before_year`). -/
def daysBeforeYear (y : Nat) : Nat :=
  365 * (y - 1) + (y - 1) / 4 + (y - 1) / 400 - (y - 1) / 100

/-- Days in the months of year `y` strictly before month `m`
(CPython `datetime._days_before_month`). -/
def daysBeforeMonth (y : Nat) : Nat → Nat
  | 0 => 0
  | 1 => 0
  | m + 1 => daysBeforeMonth y m + daysInMonth y m

/-- CPython `date.toordinal`: day count in the proleptic Gregorian
calendar, with 1.1.1 having ordinal 1. -/
def PyDate.toOrdinal (d : PyDate) : Nat :=
  daysBeforeYear d.year + daysBeforeMonth d.year d.month + d.day

/-- Weekday of an ordinal, 0 = Monday .. 6 = Sunday
(CPython `date.weekday` is `(toordinal + 6) % 7`). -/
def weekdayOfOrdinal (n : Nat) : Nat := (n + 6) % 7

/-- CPython `date.weekday`. -/
def PyDate.weekday (d : PyDate) : Nat := weekdayOfOrdinal d.toOrdinal

/-- CPython `date.replace(year=y)`: same month and day in year `y`;
`none` models the `ValueError` raised when the result is not a valid
date (e.g. Feb 29 mapped into a non-leap year). -/
def dateReplaceYear (d : PyDate) (y : Nat) : Option PyDate :=
  if validYMD y d.month d.day then some ⟨y, d.month, d.day⟩ else none

/-! ## The `%d.%m.%Y` parser (`datetime.strptime(value, "%d.%m.%Y")`)

CPython's `_strptime` compiles the format to a regex: `%d` matches one
or two digits with value 1..31, `%m` one or two digits with value 1..12,
`%Y` exactly four digits, the dots are literal, and the whole string
must be consumed; the matched triple is then passed to the
`datetime` constructor, which re-checks validity (day against the month
length, year ≥ MINYEAR). -/

/-- Split a character list on `'.'` (each dot separates fields, as the
literal dots in the format do). -/
def splitDot : List Char → List (List Char)
  | [] => [[]]
  | c :: rest =>
    match splitDot rest with
    | [] => [[]]
    | p :: ps => if c = '.' then [] :: p :: ps else (c :: p) :: ps

/-- Numeric value of a digit field. -/
def fieldVal (l : List Char) : Nat :=
  l.foldl (fun a c => 10 * a + (c.toNat - 48)) 0

/-- The `%d` regex fragment: one or two digits, value 1..31. -/
def validDayField (l : List Char) : Bool :=
  l.all Char.isDigit && 1 ≤ l.length && l.length ≤ 2
    && 1 ≤ fieldVal l && fieldVal l ≤ 31

/-- The `%m` regex fragment: one or two digits, value 1..12. -/
def validMonthField (l : List Char) : Bool :=
  l.all Char.isDigit && 1 ≤ l.length && l.length ≤ 2
    && 1 ≤ fieldVal l && fieldVal l ≤ 12

/-- The `%Y` regex fragment: exactly four digits. -/
def validYearField (l : List Char) : Bool :=
  l.all Char.isDigit && l.length = 4

/-- `datetime.strptime(s, "%d.%m.%Y")`, reduced to its date part:
`some` the parsed date on success, `none` models the `ValueError`. -/
def strptimeDMY (s : List Char) : Option PyDate :=
  match splitDot s with
  | [ds, ms, ys] =>
    if validDayField ds && validMonthField ms && validYearField ys then
      if validYMD (fieldVal ys) (fieldVal ms) (fieldVal ds) then
        some ⟨fieldVal ys, fieldVal ms, fieldVal ds⟩
      else none
    else none
  | _ => none

/-! ## Fields (`Field`, `Phone`, `Birthday` classes) -/

/-- `Phone` field: stores the raw string (`Field.value`). -/
structure Phone where
  value : List Char
deriving DecidableEq, Repr, Inhabited

/-- `Phone.validate`: `len(value) == 10 and value.isdigit()`. -/
def Phone.validate (value : List Char) : Bool :=
  value.length = 10 && value.all Char.isDigit

/-- `Field.__str__` for a phone: `str(self.value)` is the stored string. -/
def Phone.str (p : Phone) : List Char := p.value

/-- `Phone.__init__`: raises `ValueError` unless `validate` holds. -/
def Phone.make (value : List Char) : Except PyError Phone :=
  if Phone.validate value then .ok ⟨value⟩
  else .error (.valueError "Invalid phone number format. Should start from 0 and be 10 digits")

/-- `Birthday` field: stores the raw string (`Field.value`). -/
structure Birthday where
  value : List Char
deriving DecidableEq, Repr, Inhabited

/-- `Birthday.validate`: `datetime.strptime(value, "%d.%m.%Y")` succeeds. -/
def Birthday.validate (value : List Char) : Bool :=
  (strptimeDMY value).isSome

/-- `Birthday.__init__`: raises `ValueError` unless `validate` holds. -/
def Birthday.make (value : List Char) : Except PyError Birthday :=
  if Birthday.validate value then .ok ⟨value⟩
  else .error (.valueError "Invalid date format. Use DD.MM.YYYY")

/-! ## `Record` (contact: name, phones, optional birthday) -/

/-- `Record`: `self.name = Name(name)`, `self.phones = []`,
`self.birthday = None` (the `Name` wrapper stores the plain string). -/
structure Record where
  name : List Char
  phones : List Phone
  birthday : Option Birthday
deriving DecidableEq, Repr, Inhabited

/-- `Record.add_phone`: `self.phones.append(Phone(phone_number))` — the
`Phone` constructor runs (and may raise) before the append. -/
def Record.add_phone (r : Record) (phone_number : List Char) :
    Except PyError Unit × Record :=
  match Phone.make phone_number with
  | .error e => (.error e, r)
  | .ok p => (.ok (), { r with phones := r.phones ++ [p] })

/-- The loop body of `Record.edit_phone`: walk the phone list, set
`phone.value = new_phone` on the first phone whose value equals
`old_phone` and return; `none` when no phone matches. -/
def editPhoneList (old new : List Char) : List Phone → Option (List Phone)
  | [] => none
  | p :: ps =>
    if p.value = old then some (⟨new⟩ :: ps)
    else
      match editPhoneList old new ps with
      | none => none
      | some ps1 => some (p :: ps1)

/-- `Record.edit_phone`: replaces the first matching phone's `value` by
`new_phone` (no validation of `new_phone` happens — the assignment
`phone.value = new_phone` bypasses the `Phone` constructor); raises
`ValueError("Phone number not found")` when no phone matches. -/
def Record.edit_phone (r : Record) (old_phone new_phone : List Char) :
    Except PyError Unit × Record :=
  match editPhoneList old_phone new_phone r.phones with
  | some ps => (.ok (), { r with phones := ps })
  | none => (.error (.valueError "Phone number not found"), r)

/-- `Record.find_phone`: first phone whose value equals `phone_number`. -/
def Record.find_phone (r : Record) (phone_number : List Char) : Option Phone :=
  r.phones.find? (fun p => p.value = phone_number)

/-- `Record.add_birthday`: `self.birthday = Birthday(new_birthday)` —
the `Birthday` constructor runs (and may raise) before the assignment. -/
def Record.add_birthday (r : Record) (new_birthday : List Char) :
    Except PyError Unit × Record :=
  match Birthday.make new_birthday with
  | .error e => (.error e, r)
  | .ok b => (.ok (), { r with birthday := some b })

/-! ## `AddressBook` (a `UserDict` keyed by name) -/

/-- Python dict assignment `data[k] = v`: update the value in place when
the key is present (keeping its position), append otherwise. -/
def dictSet (l : List (List Char × Record)) (k : List Char) (v : Record) :
    List (List Char × Record) :=
  match l with
  | [] => [(k, v)]
  | (k1, v1) :: rest =>
    if k1 = k then (k, v) :: rest else (k1, v1) :: dictSet rest k v

/-- `AddressBook`: the `UserDict` contents as an insertion-ordered
association list from name to record. -/
structure AddressBook where
  data : List (List Char × Record)
deriving DecidableEq, Repr, Inhabited

/-- `AddressBook.add_record`: `self.data[record.name.value] = record`. -/
def AddressBook.add_record (b : AddressBook) (record : Record) : AddressBook :=
  ⟨dictSet b.data record.name record⟩

/-- `AddressBook.find`: `self.data.get(name, None)`. -/
def AddressBook.find (b : AddressBook) (name : List Char) : Option Record :=
  (b.data.find? (fun kv => kv.1 = name)).map Prod.snd

/-- `AddressBook.delete`: `del self.data[name]` when present. -/
def AddressBook.delete (b : AddressBook) (name : List Char) : AddressBook :=
  ⟨b.data.filter (fun kv => kv.1 ≠ name)⟩

/-! ## `AddressBook.get_upcoming_birthdays`

The source reads `today = datetime.now().date()` from the clock; the
embedding takes `today` as the explicit input.  Each emitted dict
`{"name": ..., "congratulation_date": strftime("%Y.%m.%d")}` is
represented with the congratulation date as its ordinal. -/

/-- An element of the returned list. -/
structure UpcomingEntry where
  name : List Char
  congratulation_date : Nat
deriving DecidableEq, Repr, Inhabited

/-- Lines 200–203 of the source: `birthday_this_year` is the birthday's
month/day in `today`'s year, advanced to the next year when already
past; each `replace` can raise (`none`). -/
def birthdayThisYear (today bdate : PyDate) : Option PyDate :=
  match dateReplaceYear bdate today.year with
  | none => none
  | some b0 =>
    if b0.toOrdinal < today.toOrdinal then dateReplaceYear b0 (today.year + 1)
    else some b0

/-- `(birthday_this_year - today).days`. -/
def daysUntil (today bty : PyDate) : Int :=
  (bty.toOrdinal : Int) - (today.toOrdinal : Int)

/-- The loop body of `get_upcoming_birthdays` for one record:
`.ok none` when the record is skipped, `.ok (some entry)` when it is
emitted, `.error` when `strptime` or a `replace` raises. -/
def upcomingForRecord (today : PyDate) (r : Record) :
    Except PyError (Option UpcomingEntry) :=
  match r.birthday with
  | none => .ok none
  | some bd =>
    match strptimeDMY bd.value with
    | none => .error (.valueError "time data does not match format")
    | some bdate =>
      match birthdayThisYear today bdate with
      | none => .error (.valueError "day is out of range for month")
      | some bty =>
        if 0 ≤ daysUntil today bty ∧ daysUntil today bty ≤ 7 then
          .ok (some ⟨r.name,
            if 5 ≤ bty.weekday then bty.toOrdinal + (7 - bty.weekday)
            else bty.toOrdinal⟩)
        else .ok none

/-- The loop of `get_upcoming_birthdays` over the records in dict order;
an exception inside the loop propagates and discards the list built so
far. -/
def goUpcoming (today : PyDate) : List Record → Except PyError (List UpcomingEntry)
  | [] => .ok []
  | r :: rs =>
    match upcomingForRecord today r with
    | .error e => .error e
    | .ok entry =>
      match goUpcoming today rs with
      | .error e => .error e
      | .ok rest =>
        match entry with
        | none => .ok rest
        | some x => .ok (x :: rest)

/-- `AddressBook.get_upcoming_birthdays` (with `today` explicit). -/
def AddressBook.get_upcoming_birthdays (b : AddressBook) (today : PyDate) :
    Except PyError (List UpcomingEntry) :=
  goUpcoming today (b.data.map Prod.snd)

/-- True when every stored birthday in the directory parses and its
month/day is not February 29 (the only `strptime`-valid date whose
recurrence `replace(year=...)` can fail). -/
def noFeb29Stored (b : AddressBook) : Bool :=
  b.data.all fun kv =>
    match kv.2.birthday with
    | none => true
    | some bd =>
      match strptimeDMY bd.value with
      | none => false
      | some dt => if dt.month = 2 ∧ dt.day = 29 then false else true

/-- Modelled from the spec's words: a strict `DD.MM.YYYY` pattern —
exactly two-digit day, two-digit month, four-digit year, all-digit
fields, naming a real calendar date. -/
def specStrictDDMMYYYY (s : List Char) : Bool :=
  match splitDot s with
  | [ds, ms, ys] =>
    ds.length = 2 && ms.length = 2 && ys.length = 4
      && ds.all Char.isDigit && ms.all Char.isDigit && ys.all Char.isDigit
      && validYMD (fieldVal ys) (fieldVal ms) (fieldVal ds)
  | _ => false

/-! ## Helper lemmas about `editPhoneList` -/

theorem editPhoneList_none (old new : List Char) (ps : List Phone)
    (h : ∀ p ∈ ps, p.value ≠ old) : editPhoneList old new ps = none := by
  induction ps with
  | nil => rfl
  | cons p ps ih =>
    simp only [editPhoneList, if_neg (h p (by simp)),
      ih (fun q hq => h q (by simp [hq]))]

theorem editPhoneList_first (old new : List Char) (ps1 : List Phone)
    (p : Phone) (ps2 : List Phone) (hp : p.value = old)
    (h1 : ∀ q ∈ ps1, q.value ≠ old) :
    editPhoneList old new (ps1 ++ p :: ps2) = some (ps1 ++ Phone.mk new :: ps2) := by
  induction ps1 with
  | nil => simp [editPhoneList, hp]
  | cons q qs ih =>
    have hq : q.value ≠ old := h1 q (by simp)
    simp only [List.cons_append, editPhoneList, if_neg hq, List.append_eq,
      ih (fun x hx => h1 x (by simp [hx]))]

theorem phone_validate_iff (s : List Char) :
    Phone.validate s = true ↔ (s.length = 10 ∧ ∀ c ∈ s, c.isDigit = true) := by
  simp [Phone.validate, List.all_eq_true]

/-- Claim C4: a phone string of length ≠ 10 or containing a non-digit
character is rejected by the `Phone` constructor with a `ValueError`;
a string of exactly 10 decimal digits is accepted and the constructed
field converts back to exactly the input string. -/
theorem phone_construction_correct (s : List Char) :
    ((s.length ≠ 10 ∨ ∃ c ∈ s, c.isDigit = false) →
      Phone.make s =
        .error (.valueError "Invalid phone number format. Should start from 0 and be 10 digits")) ∧
    ((s.length = 10 ∧ ∀ c ∈ s, c.isDigit = true) →
      Phone.make s = .ok ⟨s⟩ ∧ (Phone.mk s).str = s) := by
  constructor
  · intro h
    have hv : Phone.validate s = false := by
      cases hval : Phone.validate s with
      | false => rfl
      | true =>
        obtain ⟨h1, h2⟩ := (phone_validate_iff s).mp hval
        rcases h with h | ⟨c, hc, hd⟩
        · exact absurd h1 h
        · rw [h2 c hc] at hd; exact absurd hd (by simp)
    simp [Phone.make, hv]
  · intro h
    have hv : Phone.validate s = true := (phone_validate_iff s).mpr h
    exact ⟨by simp [Phone.make, hv], rfl⟩

theorem phone_construction_correct_witness :
    (Phone.make "012a456789".data =
        .error (.valueError "Invalid phone number format. Should start from 0 and be 10 digits")) ∧
    (Phone.make "0123456789".data = .ok ⟨"0123456789".data⟩ ∧
      (Phone.mk "0123456789".data).str = "0123456789".data) :=
  ⟨(phone_construction_correct "012a456789".data).1 (Or.inr ⟨'a', by decide, by decide⟩),
   (phone_construction_correct "0123456789".data).2 ⟨by decide, by decide⟩⟩

theorem editPhoneList_isSome (old new : List Char) (ps : List Phone)
    (h : ∃ p ∈ ps, p.value = old) : (editPhoneList old new ps).isSome = true := by
  induction ps with
  | nil => simp at h
  | cons p ps ih =>
    by_cases hp : p.value = old
    · simp [editPhoneList, hp]
    · obtain ⟨q, hq, hv⟩ := h
      rcases List.mem_cons.mp hq with rfl | hq2
      · exact absurd hv hp
      · have hsome := ih ⟨q, hq2, hv⟩
        simp only [editPhoneList, if_neg hp]
        cases hrec : editPhoneList old new ps with
        | none => rw [hrec] at hsome; simp at hsome
        | some ps1 => simp

/-- Claim C1 counterexample: a contact holds the phone "0123456789";
`edit_phone("0123456789", "x")` with the invalid new value "x" does NOT
raise — it returns normally and stores the invalid string, because the
assignment `phone.value = new_phone` bypasses the `Phone` constructor. -/
theorem edit_phone_skips_validation_counterexample :
    Phone.validate "x".data = false ∧
    (Record.mk "A".data [⟨"0123456789".data⟩] none).edit_phone
        "0123456789".data "x".data =
      (.ok (), Record.mk "A".data [⟨"x".data⟩] none) :=
  ⟨rfl, rfl⟩

/-- Claim C1 (amended): when some phone of the contact equals `old`,
`edit_phone(old, new)` returns normally for EVERY `new`, including
strings failing phone validation — the new value is written by direct
attribute assignment and is never validated. -/
theorem edit_phone_skips_validation (r : Record) (old new : List Char)
    (hmem : ∃ p ∈ r.phones, p.value = old) :
    (r.edit_phone old new).1 = .ok () := by
  have hsome := editPhoneList_isSome old new r.phones hmem
  unfold Record.edit_phone
  cases hrec : editPhoneList old new r.phones with
  | none => rw [hrec] at hsome; simp at hsome
  | some ps => rfl

theorem edit_phone_skips_validation_witness :
    ((Record.mk "A".data [⟨"0123456789".data⟩] none).edit_phone
        "0123456789".data "bad".data).1 = .ok () :=
  edit_phone_skips_validation _ _ _ ⟨⟨"0123456789".data⟩, by decide, rfl⟩

/-- Claim C7: when the contact's phone list decomposes as a prefix with
no occurrence of `old`, a first occurrence, and a suffix, `edit_phone`
(with a valid `new`) rewrites exactly that first occurrence and leaves
the prefix and suffix — later duplicates of `old` included — unchanged;
when no phone equals `old`, it raises `ValueError("Phone number not
found")` and the record is unchanged. -/
theorem edit_phone_first_match (r : Record) (old new : List Char) :
    (∀ ps1 p ps2, r.phones = ps1 ++ p :: ps2 → p.value = old →
        (∀ q ∈ ps1, q.value ≠ old) → Phone.validate new = true →
        r.edit_phone old new = (.ok (), { r with phones := ps1 ++ ⟨new⟩ :: ps2 })) ∧
    ((∀ p ∈ r.phones, p.value ≠ old) →
      r.edit_phone old new = (.error (.valueError "Phone number not found"), r)) := by
  constructor
  · intro ps1 p ps2 hdec hp h1 _
    unfold Record.edit_phone
    rw [hdec, editPhoneList_first old new ps1 p ps2 hp h1]
  · intro h
    unfold Record.edit_phone
    rw [editPhoneList_none old new r.phones h]

theorem edit_phone_first_match_witness :
    ((Record.mk "A".data
        [⟨"1111111111".data⟩, ⟨"2222222222".data⟩, ⟨"1111111111".data⟩] none).edit_phone
        "1111111111".data "3333333333".data =
      (.ok (), Record.mk "A".data
        [⟨"3333333333".data⟩, ⟨"2222222222".data⟩, ⟨"1111111111".data⟩] none)) ∧
    ((Record.mk "A".data [⟨"2222222222".data⟩] none).edit_phone
        "1111111111".data "3333333333".data =
      (.error (.valueError "Phone number not found"),
        Record.mk "A".data [⟨"2222222222".data⟩] none)) :=
  ⟨(edit_phone_first_match _ _ _).1 []
      ⟨"1111111111".data⟩ [⟨"2222222222".data⟩, ⟨"1111111111".data⟩]
      rfl rfl (by decide) (by decide),
   (edit_phone_first_match _ _ _).2 (by decide)⟩

/-- Claim C9: the failing core operations leave the contact untouched —
`add_phone` with an invalid string raises inside the `Phone` constructor
before the append, `add_birthday` with an invalid string raises inside
the `Birthday` constructor before the assignment, and `edit_phone` with
an absent old value raises after the scan without having written
anything; in each case the record after the call equals the record
before it. -/
theorem failing_operations_preserve_state (r : Record) (s old new : List Char) :
    (Phone.validate s = false →
      r.add_phone s =
        (.error (.valueError "Invalid phone number format. Should start from 0 and be 10 digits"), r)) ∧
    (Birthday.validate s = false →
      r.add_birthday s = (.error (.valueError "Invalid date format. Use DD.MM.YYYY"), r)) ∧
    ((∀ p ∈ r.phones, p.value ≠ old) →
      r.edit_phone old new = (.error (.valueError "Phone number not found"), r)) := by
  refine ⟨fun h => ?_, fun h => ?_, fun h => ?_⟩
  · simp [Record.add_phone, Phone.make, h]
  · simp [Record.add_birthday, Birthday.make, h]
  · unfold Record.edit_phone
    rw [editPhoneList_none old new r.phones h]

theorem failing_operations_preserve_state_witness :
    ((Record.mk "A".data [⟨"1111111111".data⟩] none).add_phone "12x".data =
      (.error (.valueError "Invalid phone number format. Should start from 0 and be 10 digits"),
        Record.mk "A".data [⟨"1111111111".data⟩] none)) ∧
    ((Record.mk "A".data [⟨"1111111111".data⟩] none).add_birthday "31.02.2020".data =
      (.error (.valueError "Invalid date format. Use DD.MM.YYYY"),
        Record.mk "A".data [⟨"1111111111".data⟩] none)) ∧
    ((Record.mk "A".data [⟨"1111111111".data⟩] none).edit_phone
        "2222222222".data "3333333333".data =
      (.error (.valueError "Phone number not found"),
        Record.mk "A".data [⟨"1111111111".data⟩] none)) :=
  ⟨(failing_operations_preserve_state _ "12x".data "2222222222".data "3333333333".data).1 rfl,
   (failing_operations_preserve_state _ "31.02.2020".data "2222222222".data "3333333333".data).2.1 rfl,
   (failing_operations_preserve_state _ "12x".data "2222222222".data "3333333333".data).2.2 (by decide)⟩

/-! ## Helper lemmas about `dictSet` -/

theorem filter_eq_nil_of_key_notMem (l : List (List Char × Record)) (k : List Char)
    (h : k ∉ l.map Prod.fst) : l.filter (fun kv => kv.1 = k) = [] := by
  induction l with
  | nil => rfl
  | cons kv rest ih =>
    have hk : kv.1 ≠ k := fun he => h (by simp [← he])
    have hr : k ∉ rest.map Prod.fst := fun he => h (by simp [he])
    simp [List.filter_cons, hk, ih hr]

theorem dictSet_filter_ne (l : List (List Char × Record)) (k : List Char) (v : Record) :
    (dictSet l k v).filter (fun kv => kv.1 ≠ k) = l.filter (fun kv => kv.1 ≠ k) := by
  induction l with
  | nil => simp [dictSet]
  | cons kv rest ih =>
    obtain ⟨k1, v1⟩ := kv
    simp only [ne_eq, decide_not] at ih ⊢
    by_cases h : k1 = k
    · subst h; simp [dictSet]
    · simp [dictSet, h, List.filter_cons, ih]

theorem dictSet_filter_eq (l : List (List Char × Record)) (k : List Char) (v : Record)
    (hnd : (l.map Prod.fst).Nodup) :
    (dictSet l k v).filter (fun kv => kv.1 = k) = [(k, v)] := by
  induction l with
  | nil => simp [dictSet]
  | cons kv rest ih =>
    obtain ⟨k1, v1⟩ := kv
    rw [List.map_cons, List.nodup_cons] at hnd
    by_cases h : k1 = k
    · subst h
      simp [dictSet, List.filter_cons, filter_eq_nil_of_key_notMem rest k1 hnd.1]
    · simp [dictSet, h, List.filter_cons, ih hnd.2]

theorem mem_keys_dictSet (l : List (List Char × Record)) (k : List Char) (v : Record)
    (x : List Char) :
    x ∈ (dictSet l k v).map Prod.fst → x = k ∨ x ∈ l.map Prod.fst := by
  induction l with
  | nil =>
    intro h
    simp only [dictSet, List.map_cons, List.map_nil, List.mem_singleton] at h
    exact Or.inl h
  | cons kv rest ih =>
    intro h
    obtain ⟨k1, v1⟩ := kv
    by_cases hk : k1 = k
    · subst hk
      rw [show dictSet ((k1, v1) :: rest) k1 v = (k1, v) :: rest by simp [dictSet],
        List.map_cons] at h
      cases List.mem_cons.mp h with
      | inl h1 => exact Or.inl h1
      | inr h1 => exact Or.inr (by simp [h1])
    · rw [show dictSet ((k1, v1) :: rest) k v = (k1, v1) :: dictSet rest k v by
          simp [dictSet, hk], List.map_cons] at h
      cases List.mem_cons.mp h with
      | inl h1 => exact Or.inr (by simp [h1])
      | inr h1 =>
        cases ih h1 with
        | inl h2 => exact Or.inl h2
        | inr h2 => exact Or.inr (by simp [h2])

theorem dictSet_keys_nodup (l : List (List Char × Record)) (k : List Char) (v : Record)
    (hnd : (l.map Prod.fst).Nodup) : ((dictSet l k v).map Prod.fst).Nodup := by
  induction l with
  | nil => simp [dictSet]
  | cons kv rest ih =>
    obtain ⟨k1, v1⟩ := kv
    rw [List.map_cons, List.nodup_cons] at hnd
    by_cases h : k1 = k
    · subst h
      rw [dictSet, if_pos rfl, List.map_cons, List.nodup_cons]
      exact hnd
    · rw [dictSet, if_neg h, List.map_cons, List.nodup_cons]
      refine ⟨fun hmem => ?_, ih hnd.2⟩
      rcases mem_keys_dictSet rest k v k1 hmem with h2 | h2
      · exact h h2
      · exact hnd.1 h2

/-- Claim C8: on a directory whose keys are distinct (the invariant of
Python dicts), adding a record with name `n` and then a second record
with the same name leaves exactly one entry under `n` — the second
record, whole-record replacement — while entries under every other name
are exactly those of the original directory. -/
theorem add_record_replaces (b : AddressBook) (r1 r2 : Record) (n : List Char)
    (hnd : (b.data.map Prod.fst).Nodup) (h1 : r1.name = n) (h2 : r2.name = n) :
    (((b.add_record r1).add_record r2).data.filter (fun kv => kv.1 = n) = [(n, r2)]) ∧
    (((b.add_record r1).add_record r2).data.filter (fun kv => kv.1 ≠ n) =
      b.data.filter (fun kv => kv.1 ≠ n)) := by
  unfold AddressBook.add_record
  rw [h1, h2]
  constructor
  · exact dictSet_filter_eq _ n r2 (dictSet_keys_nodup b.data n r1 hnd)
  · rw [dictSet_filter_ne, dictSet_filter_ne]

theorem add_record_replaces_witness :
    (((AddressBook.mk [("Bob".data, Record.mk "Bob".data [] none)]).add_record
          (Record.mk "Ada".data [⟨"1111111111".data⟩] none)).add_record
          (Record.mk "Ada".data [⟨"2222222222".data⟩] none)).data.filter
        (fun kv => kv.1 = "Ada".data) =
      [("Ada".data, Record.mk "Ada".data [⟨"2222222222".data⟩] none)] ∧
    (((AddressBook.mk [("Bob".data, Record.mk "Bob".data [] none)]).add_record
          (Record.mk "Ada".data [⟨"1111111111".data⟩] none)).add_record
          (Record.mk "Ada".data [⟨"2222222222".data⟩] none)).data.filter
        (fun kv => kv.1 ≠ "Ada".data) =
      [("Bob".data, Record.mk "Bob".data [] none)] := by
  have h := add_record_replaces (AddressBook.mk [("Bob".data, Record.mk "Bob".data [] none)])
    (Record.mk "Ada".data [⟨"1111111111".data⟩] none)
    (Record.mk "Ada".data [⟨"2222222222".data⟩] none)
    "Ada".data (by decide) rfl rfl
  exact ⟨h.1, h.2.trans (by decide)⟩

/-! ## Helper lemmas about the birthday scheduler -/

theorem upcoming_core {today : PyDate} {r : Record} {e : UpcomingEntry}
    (h : upcomingForRecord today r = .ok (some e)) :
    ∃ bd bdate bty, r.birthday = some bd ∧ strptimeDMY bd.value = some bdate ∧
      birthdayThisYear today bdate = some bty ∧ e.name = r.name ∧
      0 ≤ daysUntil today bty ∧ daysUntil today bty ≤ 7 ∧
      e.congratulation_date =
        (if 5 ≤ bty.weekday then bty.toOrdinal + (7 - bty.weekday)
         else bty.toOrdinal) := by
  unfold upcomingForRecord at h
  split at h
  · exact absurd h (by simp)
  rename_i bd hb
  split at h
  · exact absurd h (by simp)
  rename_i bdate hs
  split at h
  · exact absurd h (by simp)
  rename_i bty hbty
  split at h
  case isFalse => exact absurd h (by simp)
  rename_i hg
  have h1 := h
  injection h1 with h2
  injection h2 with h3
  refine ⟨bd, bdate, bty, hb, hs, hbty, ?_, hg.1, hg.2, ?_⟩
  · rw [← h3]
  · rw [← h3]

theorem mem_goUpcoming {today : PyDate} {rs : List Record}
    {l : List UpcomingEntry} {e : UpcomingEntry}
    (h : goUpcoming today rs = .ok l) (he : e ∈ l) :
    ∃ r, r ∈ rs ∧ upcomingForRecord today r = .ok (some e) := by
  induction rs generalizing l with
  | nil =>
    unfold goUpcoming at h
    have hl : ([] : List UpcomingEntry) = l := by injection h
    rw [← hl] at he
    exact absurd he (by simp)
  | cons r rs ih =>
    unfold goUpcoming at h
    cases hr : upcomingForRecord today r with
    | error err => rw [hr] at h; exact absurd h (by simp)
    | ok entry =>
      rw [hr] at h
      cases hrest : goUpcoming today rs with
      | error err => rw [hrest] at h; exact absurd h (by simp)
      | ok rest =>
        rw [hrest] at h
        cases entry with
        | none =>
          have hl : rest = l := by injection h
          subst hl
          obtain ⟨r2, hr2, hu⟩ := ih hrest he
          exact ⟨r2, by simp [hr2], hu⟩
        | some x =>
          have hl : x :: rest = l := by injection h
          subst hl
          cases List.mem_cons.mp he with
          | inl h1 => subst h1; exact ⟨r, by simp, hr⟩
          | inr h1 =>
            obtain ⟨r2, hr2, hu⟩ := ih hrest h1
            exact ⟨r2, by simp [hr2], hu⟩

theorem strptimeDMY_valid {s : List Char} {dt : PyDate}
    (h : strptimeDMY s = some dt) :
    validYMD dt.year dt.month dt.day = true := by
  unfold strptimeDMY at h
  split at h
  · split at h
    · split at h
      · rename_i hYMD
        have h1 := h
        injection h1 with h2
        rw [← h2]
        exact hYMD
      · exact absurd h (by simp)
    · exact absurd h (by simp)
  · exact absurd h (by simp)

theorem validYMD_year_change {y m d : Nat} (h : validYMD y m d = true)
    (hnot : ¬(m = 2 ∧ d = 29)) (y2 : Nat) (h1 : 1 ≤ y2) (h2 : y2 ≤ 9999) :
    validYMD y2 m d = true := by
  simp only [validYMD, Bool.and_eq_true, decide_eq_true_eq] at h ⊢
  refine ⟨⟨⟨⟨⟨h1, h2⟩, h.1.1.1.2⟩, h.1.1.2⟩, h.1.2⟩, ?_⟩
  have hd := h.2
  by_cases hm : m = 2
  · subst hm
    have hd29 : d ≠ 29 := fun hde => hnot ⟨rfl, hde⟩
    have hle : daysInMonth y 2 ≤ 29 := by
      unfold daysInMonth
      rw [if_pos rfl]
      cases isLeap y <;> simp
    have hge : 28 ≤ daysInMonth y2 2 := by
      unfold daysInMonth
      rw [if_pos rfl]
      cases isLeap y2 <;> simp
    omega
  · unfold daysInMonth at hd ⊢
    rw [if_neg hm] at hd ⊢
    exact hd

theorem birthdayThisYear_total {today bdate : PyDate}
    (hb : validYMD bdate.year bdate.month bdate.day = true)
    (hnot : ¬(bdate.month = 2 ∧ bdate.day = 29))
    (hty1 : 1 ≤ today.year) (hty2 : today.year ≤ 9998) :
    ∃ bty, birthdayThisYear today bdate = some bty := by
  have h1 : validYMD today.year bdate.month bdate.day = true :=
    validYMD_year_change hb hnot today.year hty1 (by omega)
  have h2 : validYMD (today.year + 1) bdate.month bdate.day = true :=
    validYMD_year_change hb hnot (today.year + 1) (by omega) (by omega)
  simp only [birthdayThisYear, dateReplaceYear, h1, if_true, h2]
  split
  · exact ⟨_, rfl⟩
  · exact ⟨_, rfl⟩

theorem goUpcoming_ok {today : PyDate} {rs : List Record}
    (h : ∀ r ∈ rs, ∃ o, upcomingForRecord today r = .ok o) :
    ∃ l, goUpcoming today rs = .ok l := by
  induction rs with
  | nil => exact ⟨[], rfl⟩
  | cons r rs ih =>
    obtain ⟨o, ho⟩ := h r (by simp)
    obtain ⟨l, hl⟩ := ih (fun q hq => h q (by simp [hq]))
    unfold goUpcoming
    rw [ho, hl]
    cases o with
    | none => exact ⟨l, rfl⟩
    | some x => exact ⟨x :: l, rfl⟩

theorem upcomingForRecord_total {today : PyDate} {r : Record}
    (hty : validYMD today.year today.month today.day = true)
    (hy : today.year ≤ 9998)
    (hr : (match r.birthday with
      | none => true
      | some bd =>
        match strptimeDMY bd.value with
        | none => false
        | some dt => if dt.month = 2 ∧ dt.day = 29 then false else true) = true) :
    ∃ o, upcomingForRecord today r = .ok o := by
  have hty1 : 1 ≤ today.year := by
    simp only [validYMD, Bool.and_eq_true, decide_eq_true_eq] at hty
    exact hty.1.1.1.1.1
  cases hb : r.birthday with
  | none => exact ⟨none, by simp only [upcomingForRecord, hb]⟩
  | some bd =>
    simp only [hb] at hr
    cases hs : strptimeDMY bd.value with
    | none => simp only [hs] at hr; exact absurd hr (by simp)
    | some dt =>
      simp only [hs] at hr
      have hnot : ¬(dt.month = 2 ∧ dt.day = 29) := by
        intro hfeb
        rw [if_pos hfeb] at hr
        exact absurd hr (by simp)
      obtain ⟨bty, hbty⟩ :=
        birthdayThisYear_total (strptimeDMY_valid hs) hnot hty1 hy
      simp only [upcomingForRecord, hb, hs, hbty]
      split
      · exact ⟨_, rfl⟩
      · exact ⟨none, rfl⟩

/-- Claim C2 counterexample: the birthday string "29.02.2020" passes
birthday validation (2020 is a leap year), but with `today` = 1.1.2025
the computation `birthday_date.replace(year=today.year)` is invalid
(2025 is not a leap year) and `get_upcoming_birthdays` raises a
`ValueError` instead of returning a result. -/
theorem upcoming_feb29_counterexample :
    Birthday.validate "29.02.2020".data = true ∧
    (AddressBook.mk [("A".data, Record.mk "A".data []
        (some ⟨"29.02.2020".data⟩))]).get_upcoming_birthdays ⟨2025, 1, 1⟩ =
      .error (.valueError "day is out of range for month") :=
  ⟨rfl, rfl⟩

/-- Claim C2 (amended): for every stored birthday that passed birthday
validation and is NOT February 29, and every real `today` with year at
most 9998, `get_upcoming_birthdays` returns a result; the construction
of `birthday_this_year` is defined.  (For a stored Feb-29 birthday and a
non-leap target year the source raises `ValueError`, as the
counterexample shows.) -/
theorem upcoming_total_without_feb29 (b : AddressBook) (today : PyDate)
    (hb : noFeb29Stored b = true)
    (ht : validYMD today.year today.month today.day = true)
    (hy : today.year ≤ 9998) :
    ∃ l, b.get_upcoming_birthdays today = .ok l := by
  unfold AddressBook.get_upcoming_birthdays
  refine goUpcoming_ok (fun r hr => ?_)
  rw [noFeb29Stored, List.all_eq_true] at hb
  obtain ⟨kv, hkv, hkveq⟩ := List.mem_map.mp hr
  have := hb kv hkv
  rw [hkveq] at this
  exact upcomingForRecord_total ht hy this

theorem upcoming_total_without_feb29_witness :
    ∃ l, (AddressBook.mk
      [("Alice".data, Record.mk "Alice".data []
        (some ⟨"01.06.2020".data⟩))]).get_upcoming_birthdays ⟨2025, 5, 30⟩ = .ok l :=
  upcoming_total_without_feb29
    (AddressBook.mk [("Alice".data, Record.mk "Alice".data [] (some ⟨"01.06.2020".data⟩))])
    ⟨2025, 5, 30⟩ rfl rfl (by decide)

/-- Claim C5: every entry of a returned upcoming list comes from a
record whose birthday recurrence `birthday_this_year` (this year,
advanced to next year if already past) lies between 0 and 7 days from
`today` inclusive: no emitted contact has `days_until` above 7 or below
0. -/
theorem upcoming_days_until_bounded (b : AddressBook) (today : PyDate)
    (l : List UpcomingEntry) (h : b.get_upcoming_birthdays today = .ok l) :
    ∀ e ∈ l, ∃ r bd bdate bty, r ∈ b.data.map Prod.snd ∧ r.birthday = some bd ∧
      strptimeDMY bd.value = some bdate ∧ birthdayThisYear today bdate = some bty ∧
      e.name = r.name ∧ 0 ≤ daysUntil today bty ∧ daysUntil today bty ≤ 7 := by
  intro e he
  obtain ⟨r, hr, hu⟩ := mem_goUpcoming h he
  obtain ⟨bd, bdate, bty, h1, h2, h3, h4, h5, h6, _⟩ := upcoming_core hu
  exact ⟨r, bd, bdate, bty, hr, h1, h2, h3, h4, h5, h6⟩

theorem upcoming_days_until_bounded_witness :
    ∃ r bd bdate bty,
      r ∈ (AddressBook.mk
        [("Alice".data, Record.mk "Alice".data [] (some ⟨"01.06.2020".data⟩))]).data.map
          Prod.snd ∧
      r.birthday = some bd ∧ strptimeDMY bd.value = some bdate ∧
      birthdayThisYear ⟨2025, 5, 30⟩ bdate = some bty ∧
      (UpcomingEntry.mk "Alice".data (PyDate.mk 2025 6 2).toOrdinal).name = r.name ∧
      0 ≤ daysUntil ⟨2025, 5, 30⟩ bty ∧ daysUntil ⟨2025, 5, 30⟩ bty ≤ 7 :=
  upcoming_days_until_bounded
    (AddressBook.mk [("Alice".data, Record.mk "Alice".data [] (some ⟨"01.06.2020".data⟩))])
    ⟨2025, 5, 30⟩ [⟨"Alice".data, (PyDate.mk 2025 6 2).toOrdinal⟩] rfl
    ⟨"Alice".data, (PyDate.mk 2025 6 2).toOrdinal⟩ (by simp)

/-- Claim C6: for every emitted entry, the congratulation date equals
the record's `birthday_this_year` when that date falls on Monday–Friday
(weekday < 5); it is two days later when it falls on Saturday (weekday
5) and one day later when it falls on Sunday (weekday 6). -/
theorem upcoming_weekend_shift (b : AddressBook) (today : PyDate)
    (l : List UpcomingEntry) (h : b.get_upcoming_birthdays today = .ok l) :
    ∀ e ∈ l, ∃ r bd bdate bty, r ∈ b.data.map Prod.snd ∧ r.birthday = some bd ∧
      strptimeDMY bd.value = some bdate ∧ birthdayThisYear today bdate = some bty ∧
      (bty.weekday < 5 → e.congratulation_date = bty.toOrdinal) ∧
      (bty.weekday = 5 → e.congratulation_date = bty.toOrdinal + 2) ∧
      (bty.weekday = 6 → e.congratulation_date = bty.toOrdinal + 1) := by
  intro e he
  obtain ⟨r, hr, hu⟩ := mem_goUpcoming h he
  obtain ⟨bd, bdate, bty, h1, h2, h3, _, _, _, hcong⟩ := upcoming_core hu
  refine ⟨r, bd, bdate, bty, hr, h1, h2, h3, fun hw => ?_, fun hw => ?_, fun hw => ?_⟩
  · rw [hcong, if_neg (by omega)]
  · rw [hcong, if_pos (by omega), hw]
  · rw [hcong, if_pos (by omega), hw]

theorem upcoming_weekend_shift_witness :
    ∃ r bd bdate bty,
      r ∈ (AddressBook.mk
        [("Alice".data, Record.mk "Alice".data [] (some ⟨"01.06.2020".data⟩))]).data.map
          Prod.snd ∧
      r.birthday = some bd ∧ strptimeDMY bd.value = some bdate ∧
      birthdayThisYear ⟨2025, 5, 30⟩ bdate = some bty ∧
      (bty.weekday < 5 →
        (UpcomingEntry.mk "Alice".data
          (PyDate.mk 2025 6 2).toOrdinal).congratulation_date = bty.toOrdinal) ∧
      (bty.weekday = 5 →
        (UpcomingEntry.mk "Alice".data
          (PyDate.mk 2025 6 2).toOrdinal).congratulation_date = bty.toOrdinal + 2) ∧
      (bty.weekday = 6 →
        (UpcomingEntry.mk "Alice".data
          (PyDate.mk 2025 6 2).toOrdinal).congratulation_date = bty.toOrdinal + 1) :=
  upcoming_weekend_shift
    (AddressBook.mk [("Alice".data, Record.mk "Alice".data [] (some ⟨"01.06.2020".data⟩))])
    ⟨2025, 5, 30⟩ [⟨"Alice".data, (PyDate.mk 2025 6 2).toOrdinal⟩] rfl
    ⟨"Alice".data, (PyDate.mk 2025 6 2).toOrdinal⟩ (by simp)

/-- Claim C10: every congratulation date in a returned upcoming list
falls on a weekday Monday–Friday (weekday < 5); none is a Saturday or a
Sunday. -/
theorem upcoming_congratulation_weekday (b : AddressBook) (today : PyDate)
    (l : List UpcomingEntry) (h : b.get_upcoming_birthdays today = .ok l) :
    ∀ e ∈ l, weekdayOfOrdinal e.congratulation_date < 5 := by
  intro e he
  obtain ⟨r, hr, hu⟩ := mem_goUpcoming h he
  obtain ⟨bd, bdate, bty, _, _, _, _, _, _, hcong⟩ := upcoming_core hu
  rw [hcong]
  unfold PyDate.weekday weekdayOfOrdinal
  by_cases hw : 5 ≤ (bty.toOrdinal + 6) % 7
  · rw [if_pos hw]
    omega
  · rw [if_neg hw]
    omega

theorem upcoming_congratulation_weekday_witness :
    weekdayOfOrdinal
      (UpcomingEntry.mk "Alice".data
        (PyDate.mk 2025 6 2).toOrdinal).congratulation_date < 5 :=
  upcoming_congratulation_weekday
    (AddressBook.mk [("Alice".data, Record.mk "Alice".data [] (some ⟨"01.06.2020".data⟩))])
    ⟨2025, 5, 30⟩ [⟨"Alice".data, (PyDate.mk 2025 6 2).toOrdinal⟩] rfl
    ⟨"Alice".data, (PyDate.mk 2025 6 2).toOrdinal⟩ (by simp)

/-! ## Claim C3: shape of the accepted birthday strings -/

theorem daysInMonth_le_31 (y m : Nat) : daysInMonth y m ≤ 31 := by
  unfold daysInMonth
  split
  · split <;> omega
  · split <;> omega

theorem digit_toNat_le (c : Char) (h : c.isDigit = true) :
    48 ≤ c.toNat ∧ c.toNat ≤ 57 := by
  simp [Char.isDigit] at h
  obtain ⟨h1, h2⟩ := h
  unfold Char.toNat
  exact ⟨UInt32.le_def.mp h1, UInt32.le_def.mp h2⟩

theorem foldl_digits_lt (l : List Char) (h : ∀ c ∈ l, c.isDigit = true) :
    ∀ a : Nat, l.foldl (fun a c => 10 * a + (c.toNat - 48)) a < (a + 1) * 10 ^ l.length := by
  induction l with
  | nil => intro a; simp
  | cons c cs ih =>
    intro a
    have hc9 : c.toNat - 48 ≤ 9 := by
      have := digit_toNat_le c (h c (by simp))
      omega
    calc List.foldl (fun a c => 10 * a + (c.toNat - 48)) (10 * a + (c.toNat - 48)) cs
        < (10 * a + (c.toNat - 48) + 1) * 10 ^ cs.length :=
          ih (fun x hx => h x (by simp [hx])) _
      _ ≤ (10 * (a + 1)) * 10 ^ cs.length := Nat.mul_le_mul_right _ (by omega)
      _ = (a + 1) * 10 ^ (cs.length + 1) := by ring

theorem fieldVal_lt_pow (l : List Char) (h : ∀ c ∈ l, c.isDigit = true) :
    fieldVal l < 10 ^ l.length := by
  have := foldl_digits_lt l h 0
  simpa [fieldVal] using this

theorem validDayField_iff (l : List Char) :
    validDayField l = true ↔
      ((∀ c ∈ l, c.isDigit = true) ∧ 1 ≤ l.length ∧ l.length ≤ 2 ∧
        1 ≤ fieldVal l ∧ fieldVal l ≤ 31) := by
  simp [validDayField, List.all_eq_true, and_assoc]

theorem validMonthField_iff (l : List Char) :
    validMonthField l = true ↔
      ((∀ c ∈ l, c.isDigit = true) ∧ 1 ≤ l.length ∧ l.length ≤ 2 ∧
        1 ≤ fieldVal l ∧ fieldVal l ≤ 12) := by
  simp [validMonthField, List.all_eq_true, and_assoc]

theorem validYearField_iff (l : List Char) :
    validYearField l = true ↔ ((∀ c ∈ l, c.isDigit = true) ∧ l.length = 4) := by
  simp [validYearField, List.all_eq_true]

theorem validYMD_iff (y m d : Nat) :
    validYMD y m d = true ↔
      (1 ≤ y ∧ y ≤ 9999 ∧ 1 ≤ m ∧ m ≤ 12 ∧ 1 ≤ d ∧ d ≤ daysInMonth y m) := by
  simp [validYMD, and_assoc]

/-- Claim C3 counterexample: the string "1.1.2020" — one-digit day and
month, violating the claimed fixed two-digit widths — nonetheless
passes birthday validation, because `strptime`'s `%d` and `%m` accept
one- or two-digit fields. -/
theorem birthday_validate_width_counterexample :
    Birthday.validate "1.1.2020".data = true ∧
    specStrictDDMMYYYY "1.1.2020".data = false :=
  ⟨rfl, rfl⟩

/-- Claim C3 (amended): birthday validation accepts exactly the strings
of the form day.month.year where the day and month fields are one OR two
digits (wrong widths for them are NOT rejected), the year field is
exactly four digits, and the three values name a real calendar date
(year 1..9999, month 1..12, day within the month's length); non-numeric
fields, month 13, and Feb 30 are rejected, and `Birthday` construction
raises `ValueError` exactly on the rejected strings. -/
theorem birthday_validate_iff (s : List Char) :
    Birthday.validate s = true ↔
      ∃ ds ms ys, splitDot s = [ds, ms, ys] ∧
        (∀ c ∈ ds, c.isDigit = true) ∧ 1 ≤ ds.length ∧ ds.length ≤ 2 ∧
        (∀ c ∈ ms, c.isDigit = true) ∧ 1 ≤ ms.length ∧ ms.length ≤ 2 ∧
        (∀ c ∈ ys, c.isDigit = true) ∧ ys.length = 4 ∧
        1 ≤ fieldVal ys ∧ 1 ≤ fieldVal ms ∧ fieldVal ms ≤ 12 ∧
        1 ≤ fieldVal ds ∧
        fieldVal ds ≤ daysInMonth (fieldVal ys) (fieldVal ms) := by
  unfold Birthday.validate strptimeDMY
  constructor
  · intro h
    split at h
    case h_2 => simp at h
    rename_i ds ms ys hsp
    by_cases h1 : (validDayField ds && validMonthField ms && validYearField ys) = true
    · rw [if_pos h1] at h
      by_cases h2 : validYMD (fieldVal ys) (fieldVal ms) (fieldVal ds) = true
      · rw [Bool.and_eq_true, Bool.and_eq_true] at h1
        obtain ⟨⟨hda, hma⟩, hya⟩ := h1
        obtain ⟨hd1, hd2, hd3, hd4, _⟩ := (validDayField_iff ds).mp hda
        obtain ⟨hm1, hm2, hm3, hm4, hm5⟩ := (validMonthField_iff ms).mp hma
        obtain ⟨hy1, hy2⟩ := (validYearField_iff ys).mp hya
        obtain ⟨hv1, hv2, hv3, hv4, hv5, hv6⟩ := (validYMD_iff _ _ _).mp h2
        exact ⟨ds, ms, ys, hsp, hd1, hd2, hd3, hm1, hm2, hm3, hy1, hy2,
          hv1, hv3, hv4, hv5, hv6⟩
      · rw [if_neg h2] at h
        simp at h
    · rw [if_neg h1] at h
      simp at h
  · rintro ⟨ds, ms, ys, hsp, hd1, hd2, hd3, hm1, hm2, hm3, hy1, hy2,
      hv1, hv3, hv4, hv5, hv6⟩
    rw [hsp]
    have hyle : fieldVal ys ≤ 9999 := by
      have := fieldVal_lt_pow ys hy1
      rw [hy2] at this
      omega
    have h1 : (validDayField ds && validMonthField ms && validYearField ys) = true := by
      rw [Bool.and_eq_true, Bool.and_eq_true]
      refine ⟨⟨(validDayField_iff ds).mpr ⟨hd1, hd2, hd3, hv5, ?_⟩,
        (validMonthField_iff ms).mpr ⟨hm1, hm2, hm3, hv3, hv4⟩⟩,
        (validYearField_iff ys).mpr ⟨hy1, hy2⟩⟩
      exact le_trans hv6 (daysInMonth_le_31 _ _)
    have h2 : validYMD (fieldVal ys) (fieldVal ms) (fieldVal ds) = true :=
      (validYMD_iff _ _ _).mpr ⟨hv1, hyle, hv3, hv4, hv5, hv6⟩
    simp [h1, h2]
